import Mathlib

/-!
Verification of the examination-pass generator.

This file gives a shallow embedding, in Lean 4, of the core of the
`examination-pass-generator` repository (Python): the record models
(`Student`, `Exam`), the date parsing/formatting utilities
(`src/utils/date_formatter.py`, `Exam.formatted_date`), the grouping and
exam-filtering services (`src/services/data_loader.py`), the output-path
derivation (`src/utils/file_manager.py`), the orchestrator's grade ordering
and statistics (`src/services/pass_generator.py`), and the page-level layout
loop of the PDF generator (`src/services/pdf_generator.py`).

Python-specific behaviour is modelled explicitly:
* `datetime.strptime` is modelled by a backtracking matcher over the format
  directives actually used by the repository (`%d`, `%m`, `%y`, `%Y` and
  literal separators), with CPython's regex alternations for each directive
  and the constructor's calendar validation (ValueError on, e.g., day 31 of
  a 30-day month);
* `list.sort(key=...)` is modelled as a stable insertion sort over the key
  order (CPython's sort is stable; on lists whose keys are pairwise
  comparable any stable sort produces the same output).  A comparison
  between a `datetime` key and a `str` key raises `TypeError`, which is
  modelled by threading `Except`;
* Python dicts are modelled as insertion-ordered association lists.
-/

namespace PassGen

/-! ## Dates (the fragment of `datetime.date` the program uses) -/

/-- Calendar date as produced by `datetime.strptime` (time parts are unused
by the program and omitted). -/
structure Date where
  year : Nat
  month : Nat
  day : Nat
deriving DecidableEq, Repr

/-- Gregorian leap-year test, as in CPython's `datetime`. -/
def isLeapYear (y : Nat) : Bool :=
  y % 4 == 0 && (y % 100 != 0 || y % 400 == 0)

/-- Number of days in a month, as validated by the `datetime` constructor. -/
def daysInMonth (y m : Nat) : Nat :=
  if m == 2 then (if isLeapYear y then 29 else 28)
  else if m == 4 || m == 6 || m == 9 || m == 11 then 30
  else 31

/-- Validation performed by the `datetime.datetime` constructor: year in
1..9999, month in 1..12, day in 1..days-in-month; otherwise ValueError. -/
def mkValidDate (y m d : Nat) : Option Date :=
  if 1 ≤ y && y ≤ 9999 && 1 ≤ m && m ≤ 12 && 1 ≤ d && d ≤ daysInMonth y m then
    some ⟨y, m, d⟩
  else
    none

/-- Comparison of two dates, as `datetime` `<=` (times are all midnight). -/
def dateLe (a b : Date) : Bool :=
  a.year < b.year ||
    (a.year == b.year &&
      (a.month < b.month || (a.month == b.month && a.day ≤ b.day)))

/-! ## A model of `datetime.strptime` for the formats the program uses

CPython's `_strptime` compiles each directive to a regex alternation and
requires the whole input string to be consumed:
* `%d` compiles to `3[01]|[12]\d|0[1-9]|[1-9]` — i.e. two digits forming
  1..31 are tried first, then a single digit 1..9;
* `%m` compiles to `1[0-2]|0[1-9]|[1-9]` — two digits forming 1..12 first,
  then a single digit 1..9;
* `%y` compiles to exactly two digits; a value of 0..68 means 2000..2068 and
  69..99 means 1969..1999;
* `%Y` compiles to exactly four digits;
* a literal character matches itself.
The matcher below implements exactly these alternations with full
backtracking (regex DFS order). -/

/-- Format directive: the subset of `strptime` directives used by the
repository's format strings. -/
inductive FmtItem where
  | d : FmtItem
  | m : FmtItem
  | y2 : FmtItem
  | y4 : FmtItem
  | lit : Char → FmtItem
deriving DecidableEq, Repr

/-- Numeric value of a decimal digit character. -/
def digitVal (c : Char) : Nat := c.toNat - '0'.toNat

/-- Fields accumulated while matching; CPython defaults to 1900-01-01. -/
structure PFields where
  year : Nat
  month : Nat
  day : Nat
deriving DecidableEq, Repr

/-- Backtracking matcher for a format against a character list, following
CPython's per-directive regex alternations in order (for `%d` and `%m` the
two-digit alternatives come before the single-digit one, with full
backtracking into the rest of the format). -/
def matchFmt : List FmtItem → List Char → PFields → Option PFields
  | [], [], f => some f
  | [], _ :: _, _ => none
  | .lit _ :: _, [], _ => none
  | .lit c :: items, x :: rest, f =>
    if x = c then matchFmt items rest f else none
  | .d :: _, [], _ => none
  | .d :: items, [c1], f =>
    if c1.isDigit && 1 ≤ digitVal c1 then
      matchFmt items [] { f with day := digitVal c1 }
    else none
  | .d :: items, c1 :: c2 :: rest, f =>
    (if c1.isDigit && c2.isDigit &&
        1 ≤ digitVal c1 * 10 + digitVal c2 && digitVal c1 * 10 + digitVal c2 ≤ 31 then
      matchFmt items rest { f with day := digitVal c1 * 10 + digitVal c2 }
    else none) <|>
    (if c1.isDigit && 1 ≤ digitVal c1 then
      matchFmt items (c2 :: rest) { f with day := digitVal c1 }
    else none)
  | .m :: _, [], _ => none
  | .m :: items, [c1], f =>
    if c1.isDigit && 1 ≤ digitVal c1 then
      matchFmt items [] { f with month := digitVal c1 }
    else none
  | .m :: items, c1 :: c2 :: rest, f =>
    (if c1.isDigit && c2.isDigit &&
        1 ≤ digitVal c1 * 10 + digitVal c2 && digitVal c1 * 10 + digitVal c2 ≤ 12 then
      matchFmt items rest { f with month := digitVal c1 * 10 + digitVal c2 }
    else none) <|>
    (if c1.isDigit && 1 ≤ digitVal c1 then
      matchFmt items (c2 :: rest) { f with month := digitVal c1 }
    else none)
  | .y2 :: _, [], _ => none
  | .y2 :: _, [_], _ => none
  | .y2 :: items, c1 :: c2 :: rest, f =>
    if c1.isDigit && c2.isDigit then
      let v := digitVal c1 * 10 + digitVal c2
      matchFmt items rest { f with year := if v ≤ 68 then 2000 + v else 1900 + v }
    else none
  | .y4 :: _, [], _ => none
  | .y4 :: _, [_], _ => none
  | .y4 :: _, [_, _], _ => none
  | .y4 :: _, [_, _, _], _ => none
  | .y4 :: items, c1 :: c2 :: c3 :: c4 :: rest, f =>
    if c1.isDigit && c2.isDigit && c3.isDigit && c4.isDigit then
      matchFmt items rest
        { f with year :=
            digitVal c1 * 1000 + digitVal c2 * 100 + digitVal c3 * 10 + digitVal c4 }
    else none

/-- Model of Python's `str.strip()`: drop leading and trailing whitespace. -/
def pystrip (s : String) : String :=
  ⟨(((s.toList.dropWhile Char.isWhitespace).reverse.dropWhile Char.isWhitespace).reverse)⟩

/-- Model of `datetime.strptime(s, fmt)` returning `none` where CPython
raises ValueError (either a regex mismatch, unconverted trailing data, or an
out-of-range calendar component). -/
def strptime (s : String) (fmt : List FmtItem) : Option Date :=
  match matchFmt fmt s.toList ⟨1900, 1, 1⟩ with
  | none => none
  | some f => mkValidDate f.year f.month f.day

/-- First format in the list that parses the string, as the `for`/`except
ValueError: continue` loops in the source. -/
def tryFormats : List (List FmtItem) → String → Option Date
  | [], _ => none
  | fmt :: rest, s =>
    match strptime s fmt with
    | some d => some d
    | none => tryFormats rest s

/-- Month abbreviations of `strftime("%b")` in the C locale. -/
def monthAbbrev (m : Nat) : String :=
  match m with
  | 1 => "Jan" | 2 => "Feb" | 3 => "Mar" | 4 => "Apr" | 5 => "May" | 6 => "Jun"
  | 7 => "Jul" | 8 => "Aug" | 9 => "Sep" | 10 => "Oct" | 11 => "Nov" | 12 => "Dec"
  | _ => ""

/-- Full month names of `strftime("%B")` in the C locale. -/
def monthFull (m : Nat) : String :=
  match m with
  | 1 => "January" | 2 => "February" | 3 => "March" | 4 => "April"
  | 5 => "May" | 6 => "June" | 7 => "July" | 8 => "August"
  | 9 => "September" | 10 => "October" | 11 => "November" | 12 => "December"
  | _ => ""

/-- Zero-padded two-digit rendering, as `strftime("%d")`. -/
def pad2 (n : Nat) : String :=
  if n < 10 then "0" ++ toString n else toString n

/-- Model of `date_obj.strftime("%d %b %Y")` (glibc prints `%Y` without
padding). -/
def strftimeDbY (d : Date) : String :=
  pad2 d.day ++ " " ++ monthAbbrev d.month ++ " " ++ toString d.year

/-! ## The two format lists of the repository -/

/-- Format `"%d/%m/%y"`. -/
def fmtDMy : List FmtItem := [.d, .lit '/', .m, .lit '/', .y2]

/-- Format `"%d/%m/%Y"`. -/
def fmtDMY : List FmtItem := [.d, .lit '/', .m, .lit '/', .y4]

/-- Format `"%d-%m-%Y"`. -/
def fmtDdashMY : List FmtItem := [.d, .lit '-', .m, .lit '-', .y4]

/-- Format `"%Y-%m-%d"`. -/
def fmtYMD : List FmtItem := [.y4, .lit '-', .m, .lit '-', .d]

/-- Format `"%m/%d/%y"`. -/
def fmtMDy : List FmtItem := [.m, .lit '/', .d, .lit '/', .y2]

/-- Format `"%m/%d/%Y"`. -/
def fmtMDY : List FmtItem := [.m, .lit '/', .d, .lit '/', .y4]

/-- The six formats tried, in order, by `Exam.formatted_date`
(src/models/exam.py). -/
def examDateFormats : List (List FmtItem) :=
  [fmtDMy, fmtDMY, fmtDdashMY, fmtYMD, fmtMDy, fmtMDY]

/-- The eight formats tried, in order, by `parse_date`
(src/utils/date_formatter.py); the last two repeat the first two. -/
def parseDateFormats : List (List FmtItem) :=
  [fmtDMy, fmtDMY, fmtDdashMY, fmtYMD, fmtMDy, fmtMDY, fmtDMy, fmtDMY]

/-- Model of `parse_date` from src/utils/date_formatter.py: `None` for the
empty string (falsy), otherwise first matching format of the stripped
string. -/
def parse_date (s : String) : Option Date :=
  if s = "" then none
  else tryFormats parseDateFormats (pystrip s)

/-! ## Record models -/

/-- Student record (src/models/student.py). -/
structure Student where
  name : String
  school : String
  grade : String
  «section» : String
  enrollment_code : Option String
deriving DecidableEq, Repr

/-- Exam record (src/models/exam.py). -/
structure Exam where
  grade : String
  subject : String
  exam_date : String
  day : String
  timing : String
  school : String
  exam_name : String
  academic_year : String
deriving DecidableEq, Repr

/-- School record (src/models/school.py). -/
structure School where
  name : String
  address_line1 : String
  address_line2 : String
  email : String
deriving DecidableEq, Repr

/-- Model of `Exam.formatted_date`: try the six formats in order on the
stripped date string, rendering the first match as `"%d %b %Y"`; if none
matches, return the original (unstripped) string. -/
def Exam.formatted_date (e : Exam) : String :=
  match tryFormats examDateFormats (pystrip e.exam_date) with
  | some d => strftimeDbY d
  | none => e.exam_date

/-! ## Grouping and filtering (src/services/data_loader.py) -/

/-- Model of `DataLoader._map_student_grade_to_exam_grade`: fixed table with
identity fallback. -/
def map_student_grade_to_exam_grade (student_grade : String) : String :=
  if student_grade = "Grade 10" then "IGCSE"
  else if student_grade = "Grade 11" then "AS LEVEL"
  else if student_grade = "Grade 12" then "A LEVEL"
  else student_grade

/-- Python-tuple comparison of the sort key `(s.section, s.name)` used by
`group_students_by_school_and_grade`: lexicographic on code points. -/
def studentLe (a b : Student) : Prop :=
  a.«section» < b.«section» ∨ (a.«section» = b.«section» ∧ a.name ≤ b.name)

instance : DecidableRel studentLe := fun a b => by
  unfold studentLe; infer_instance

instance : IsTotal Student studentLe := by
  constructor
  intro a b
  rcases lt_trichotomy a.«section» b.«section» with h | h | h
  · exact Or.inl (Or.inl h)
  · rcases le_total a.name b.name with h2 | h2
    · exact Or.inl (Or.inr ⟨h, h2⟩)
    · exact Or.inr (Or.inr ⟨h.symm, h2⟩)
  · exact Or.inr (Or.inl h)

instance : IsTrans Student studentLe := by
  constructor
  intro a b c hab hbc
  rcases hab with h1 | ⟨e1, n1⟩
  · rcases hbc with h2 | ⟨e2, _⟩
    · exact Or.inl (h1.trans h2)
    · exact Or.inl (e2 ▸ h1)
  · rcases hbc with h2 | ⟨e2, n2⟩
    · exact Or.inl (e1 ▸ h2)
    · exact Or.inr ⟨e1.trans e2, n1.trans n2⟩

/-- Insert a value for a key in an insertion-ordered association list,
creating the key at the end when absent; this is the effect of the
`if k not in d: d[k] = default` / `mutate d[k]` idiom on a Python dict. -/
def upsert {β : Type} (k : String) (dflt : β) (f : β → β) :
    List (String × β) → List (String × β)
  | [] => [(k, f dflt)]
  | (k', v) :: rest =>
    if k' = k then (k', f v) :: rest else (k', v) :: upsert k dflt f rest

/-- Association-list lookup (first binding wins, as Python dict access). -/
def alookup {β : Type} (k : String) : List (String × β) → Option β
  | [] => none
  | (k', v) :: rest => if k' = k then some v else alookup k rest

/-- Nested mapping school → grade → student list, insertion-ordered. -/
abbrev Grouped := List (String × List (String × List Student))

/-- One step of the grouping loop: append the student to the bucket of its
(school, grade) pair, creating missing dict entries at the end. -/
def stepStudent (g : Grouped) (st : Student) : Grouped :=
  upsert st.school [] (upsert st.grade [] (fun l => l ++ [st])) g

/-- First phase of `group_students_by_school_and_grade`: build the nested
dict by appending each student to its (school, grade) bucket. -/
def groupFold (students : List Student) : Grouped :=
  students.foldl stepStudent []

/-- The (school, grade) bucket of a grouped structure, empty when either key
is absent. -/
def bucketOf (g : Grouped) (school grade : String) : List Student :=
  match alookup school g with
  | none => []
  | some grades => (alookup grade grades).getD []

/-- All students of one school's grade dict, in structure order. -/
def flattenGrades (grades : List (String × List Student)) : List Student :=
  grades.flatMap (fun gb => gb.2)

/-- All students of a grouped structure, in structure order. -/
def flattenGroups (g : Grouped) : List Student :=
  g.flatMap (fun sg => flattenGrades sg.2)

/-- Model of `group_students_by_school_and_grade`: group, then sort each
grade's list by `(section, name)` with Python's stable sort. -/
def group_students_by_school_and_grade (students : List Student) : Grouped :=
  (groupFold students).map
    (fun sg => (sg.1, sg.2.map (fun gb => (gb.1, List.insertionSort studentLe gb.2))))

/-- Sort key of `filtered.sort(key=lambda e: parse_date(e.exam_date) or e.exam_date)`:
a `datetime` when the date parses, the raw string otherwise. -/
def examSortKey (e : Exam) : Sum Date String :=
  match parse_date e.exam_date with
  | some d => Sum.inl d
  | none => Sum.inr e.exam_date

/-- Comparison of two sort keys as CPython performs it: `datetime <= datetime`
and `str <= str` succeed; comparing a `datetime` with a `str` raises
TypeError, modelled as `Except.error`. -/
def keyCmp : Sum Date String → Sum Date String → Except Unit Bool
  | Sum.inl d1, Sum.inl d2 => .ok (dateLe d1 d2)
  | Sum.inr s1, Sum.inr s2 => .ok (decide (s1 ≤ s2))
  | _, _ => .error ()

/-- Total extension of the key order used to reason about the sort on
homogeneous key lists (CPython never compares across the two sides without
raising, so the cross cases are never exercised). -/
def keyLeT : Sum Date String → Sum Date String → Prop
  | Sum.inl d1, Sum.inl d2 => dateLe d1 d2 = true
  | Sum.inr s1, Sum.inr s2 => s1 ≤ s2
  | Sum.inl _, Sum.inr _ => True
  | Sum.inr _, Sum.inl _ => False

instance : DecidableRel keyLeT := fun a b => by
  cases a <;> cases b <;> unfold keyLeT <;> infer_instance

/-- Exam order induced by the sort keys. -/
def examLeT (a b : Exam) : Prop := keyLeT (examSortKey a) (examSortKey b)

instance : DecidableRel examLeT := fun a b => by
  unfold examLeT; infer_instance

instance : IsTotal Exam examLeT :=
  ⟨fun a b => by
    unfold examLeT
    cases examSortKey a with
    | inl d1 =>
      cases examSortKey b with
      | inl d2 =>
        show dateLe d1 d2 = true ∨ dateLe d2 d1 = true
        simp only [dateLe, Bool.or_eq_true, Bool.and_eq_true, decide_eq_true_eq,
          beq_iff_eq]
        omega
      | inr _ => exact Or.inl trivial
    | inr s1 =>
      cases examSortKey b with
      | inl _ => exact Or.inr trivial
      | inr s2 => exact le_total s1 s2⟩

instance : IsTrans Exam examLeT :=
  ⟨fun a b c => by
    unfold examLeT
    cases examSortKey a with
    | inl d1 =>
      cases examSortKey b with
      | inl d2 =>
        cases examSortKey c with
        | inl d3 =>
          intro hab hbc
          have h1 : dateLe d1 d2 = true := hab
          have h2 : dateLe d2 d3 = true := hbc
          show dateLe d1 d3 = true
          simp only [dateLe, Bool.or_eq_true, Bool.and_eq_true, decide_eq_true_eq,
            beq_iff_eq] at h1 h2 ⊢
          omega
        | inr _ => intro _ _; trivial
      | inr s2 =>
        cases examSortKey c with
        | inl _ => intro _ hbc; exact hbc.elim
        | inr _ => intro _ _; trivial
    | inr s1 =>
      cases examSortKey b with
      | inl _ => intro hab _; exact hab.elim
      | inr s2 =>
        cases examSortKey c with
        | inl _ => intro _ hbc; exact hbc.elim
        | inr s3 => intro hab hbc; exact le_trans hab hbc⟩

/-- Stable insertion into a sorted list with a comparison that can raise,
mirroring `List.orderedInsert`. -/
def orderedInsertE {α : Type} (cmp : α → α → Except Unit Bool) (a : α) :
    List α → Except Unit (List α)
  | [] => .ok [a]
  | b :: l => do
    if (← cmp a b) then pure (a :: b :: l)
    else pure (b :: (← orderedInsertE cmp a l))

/-- Model of CPython's stable `list.sort` with a raising comparison: on any
list whose keys are pairwise comparable it returns what every stable sort
returns; a raised TypeError propagates. -/
def insertionSortE {α : Type} (cmp : α → α → Except Unit Bool) :
    List α → Except Unit (List α)
  | [] => .ok []
  | b :: l => do orderedInsertE cmp b (← insertionSortE cmp l)

/-- The list comprehension of `filter_exams_for_grade_and_school`: exams
whose grade equals the mapped grade and whose school equals the school. -/
def matchedExams (exams : List Exam) (grade school : String) : List Exam :=
  exams.filter
    (fun e => e.grade = map_student_grade_to_exam_grade grade ∧ e.school = school)

/-- Model of `DataLoader.filter_exams_for_grade_and_school`: filter on the
mapped grade and the school, then `list.sort` by
`parse_date(e.exam_date) or e.exam_date`. -/
def filter_exams_for_grade_and_school (exams : List Exam) (grade school : String) :
    Except Unit (List Exam) :=
  insertionSortE (fun a b => keyCmp (examSortKey a) (examSortKey b))
    (matchedExams exams grade school)

/-! ## Output path naming (src/utils/file_manager.py) -/

/-- Model of `get_school_abbreviation`: closed table with sentinel "XXX". -/
def get_school_abbreviation (school_name : String) : String :=
  if school_name = "Excel Central School" then "ECS"
  else if school_name = "Excel Global School" then "EGS"
  else if school_name = "Excel Pathway School" then "EPS"
  else "XXX"

/-- Model of `get_display_grade_for_school`: remap four grades for Excel
Global School only, identity otherwise. -/
def get_display_grade_for_school (grade school_name : String) : String :=
  if school_name = "Excel Global School" then
    if grade = "Grade 09" then "IGCSE Jr"
    else if grade = "Grade 10" then "IGCSE"
    else if grade = "Grade 11" then "AS Level"
    else if grade = "Grade 12" then "A Level"
    else grade
  else grade

/-- Model of Python's `str.replace(" ", "_")` (single-character pattern, so a
character-wise map). -/
def underscored (s : String) : String :=
  ⟨s.toList.map (fun c => if c = ' ' then '_' else c)⟩

/-- Model of `get_output_path`: the path is represented by its segments
relative to and including the output root (the `mkdir` side effect is not
part of the value). -/
def get_output_path (school grade exam_name : String) (output_dir : String) :
    List String :=
  [output_dir, school,
    get_school_abbreviation school ++ "_"
      ++ underscored (get_display_grade_for_school grade school)
      ++ "_Passes_" ++ underscored exam_name ++ ".pdf"]

/-! ## Grade ordering of the orchestrator (src/services/pass_generator.py) -/

/-- Digits-only parse: the value of a nonempty all-digit character list. -/
def parseDigits : List Char → Option Nat
  | [] => none
  | cs =>
    if cs.all Char.isDigit then
      some (cs.foldl (fun acc c => acc * 10 + digitVal c) 0)
    else none

/-- Model of Python's `int(s)` on the decimal string forms that can occur in
grade labels: optional surrounding whitespace, optional sign, a nonempty
digit run; anything else raises ValueError (`none`). -/
def int_of_pystring (s : String) : Option Int :=
  match (pystrip s).toList with
  | '-' :: rest => (parseDigits rest).map (fun n => -(n : Int))
  | '+' :: rest => (parseDigits rest).map (fun n => (n : Int))
  | l => (parseDigits l).map (fun n => (n : Int))

/-- Model of Python's `str.split()` (no separator): split on whitespace runs
and drop empty pieces. -/
def pysplit (s : String) : List String :=
  ((s.toList.splitOnP Char.isWhitespace).map (fun l => (⟨l⟩ : String))).filter
    (fun p => p ≠ "")

/-- Model of `PassGenerator._extract_grade_number`: `int(grade.split()[-1])`,
with 0 on ValueError or IndexError. -/
def extract_grade_number (grade : String) : Int :=
  match (pysplit grade).getLast? with
  | none => 0
  | some tok =>
    match int_of_pystring tok with
    | some n => n
    | none => 0

/-- Order on the grade items of one school used by the orchestrator's
`sorted(grades.items(), key=lambda x: self._extract_grade_number(x[0]))`. -/
def gradeItemLe (a b : String × List Student) : Prop :=
  extract_grade_number a.1 ≤ extract_grade_number b.1

instance : DecidableRel gradeItemLe := fun a b => by
  unfold gradeItemLe; infer_instance

instance : IsTotal (String × List Student) gradeItemLe :=
  ⟨fun a b => le_total (extract_grade_number a.1) (extract_grade_number b.1)⟩

instance : IsTrans (String × List Student) gradeItemLe :=
  ⟨fun _ _ _ hab hbc => le_trans hab hbc⟩

/-- Grade iteration order of the orchestrator within one school. -/
def sorted_grade_items (grades : List (String × List Student)) :
    List (String × List Student) :=
  List.insertionSort gradeItemLe grades

/-! ## Student derived property (src/models/student.py) -/

/-- Model of Python's `str.lower()` on the character repertoire in use. -/
def pylower (s : String) : String := ⟨s.toList.map Char.toLower⟩

/-- Model of Python's `str.capitalize()`: first character upper-cased, the
rest lower-cased. -/
def pycapitalize (s : String) : String :=
  match s.toList with
  | [] => ""
  | c :: rest => ⟨Char.toUpper c :: rest.map Char.toLower⟩

/-- Model of `Student.grade_section`: the grade joined with the section
unless the section is empty (falsy), whitespace, or one of the placeholder
tokens. -/
def Student.grade_section (s : Student) : String :=
  if s.«section» ≠ "" ∧ pystrip s.«section» ≠ "" ∧
      pylower (pystrip s.«section») ∉ (["nan", "none", "", "-"] : List String) then
    s.grade ++ " " ++ s.«section»
  else
    s.grade

/-! ## PDF layout engine (src/services/pdf_generator.py)

ReportLab's mutable canvas is modelled as an explicit page buffer: drawing
operations append to the current page, `showPage` flushes it, and `save`
flushes a non-empty current page (reportlab's `Canvas.save` executes a
`showPage` automatically when current page data exists) and returns the
document.  The unrecoverable I/O points of the source — constructing the
canvas over the output file and saving it — and the per-image lookups are
driven by an explicit environment. -/

/-- Environment of faults and assets for one `generate_grade_passes` call:
whether opening the PDF target raises, whether saving raises, and whether
each per-school image exists / whether reading it raises. -/
structure RenderEnv where
  openFails : Bool
  saveFails : Bool
  logoExists : Bool
  logoFails : Bool
  sigExists : Bool
  sigFails : Bool
deriving DecidableEq, Repr

/-- Drawing operation recorded on a page: a whole laid-out pass for one
student, or the centre divider line. -/
inductive Op where
  | passOp (student : Student) (is_left : Bool) (logoDrawn : Bool) (title : String)
      (infoCells : List (String × String)) (scheduleRows : List (List String))
      (sigDrawn : Bool) : Op
  | divider : Op
deriving DecidableEq, Repr

/-- Model of `_draw_pass` (with `_draw_header`, `_draw_student_info`,
`_draw_exam_schedule`, `_draw_footer`): the logo is drawn only when the
mapped file exists and reading it does not raise (a raise is caught and
logged); the title falls back to "Term I" on an empty exam list; the
enrollment cell is blank for a missing code; each schedule row renders the
formatted date (raw string on parse failure) and the capitalized timing;
the signature is composited only when present and readable. -/
def draw_pass (env : RenderEnv) (st : Student) (exams : List Exam) (is_left : Bool) : Op :=
  .passOp st is_left
    (env.logoExists && !env.logoFails)
    ("Examination Entry Pass - " ++
      (match exams.head? with
        | some e => e.exam_name
        | none => "Term I"))
    [("Student Name", st.name),
     ("Grade & Section", st.grade_section),
     ("Enrollment Code", st.enrollment_code.getD "")]
    (exams.map (fun e => [e.subject, e.formatted_date, e.day, pycapitalize e.timing]))
    (env.sigExists && !env.sigFails)

/-- Canvas state: flushed pages plus the current page buffer. -/
structure Canvas where
  pages : List (List Op)
  current : List Op
deriving DecidableEq, Repr

/-- Append a drawing operation to the current page. -/
def Canvas.emit (c : Canvas) (op : Op) : Canvas :=
  ⟨c.pages, c.current ++ [op]⟩

/-- Model of `canvas.showPage()`: flush the current page. -/
def Canvas.showPage (c : Canvas) : Canvas :=
  ⟨c.pages ++ [c.current], []⟩

/-- Model of `canvas.save()`: reportlab flushes the current page first when
it holds any drawing code. -/
def Canvas.save (c : Canvas) : List (List Op) :=
  if c.current = [] then c.pages else c.pages ++ [c.current]

/-- The `for i in range(0, len(students), 2)` loop of
`generate_grade_passes`: left pass for the even-index student, right pass
for the odd-index one when it exists, then the centre divider; a new page is
started only when at least one further student remains. -/
def passLoop (env : RenderEnv) (exams : List Exam) : List Student → Canvas → Canvas
  | [], c => c
  | [s], c => (c.emit (draw_pass env s exams true)).emit .divider
  | s1 :: s2 :: rest, c =>
    let c := ((c.emit (draw_pass env s1 exams true)).emit
        (draw_pass env s2 exams false)).emit .divider
    match rest with
    | [] => c
    | _ :: _ => passLoop env exams rest c.showPage

/-- Model of `PDFGenerator.generate_grade_passes`: the boolean result of the
`try`/`except` body together with the saved document (empty when the call
failed).  Opening the canvas and saving it are the two operations of the
body that can raise; the raise is caught and `False` returned. -/
def generate_grade_passes (env : RenderEnv) (students : List Student)
    (exams : List Exam) : Bool × List (List Op) :=
  if env.openFails then (false, [])
  else
    let c := passLoop env exams students ⟨[], []⟩
    if env.saveFails then (false, [])
    else (true, c.save)

/-- Expected page `k` of a grade document: student `2k` as the left pass,
student `2k+1` (when present) as the right pass, then the divider. -/
def expectedPage (env : RenderEnv) (exams : List Exam) (students : List Student)
    (k : Nat) : List Op :=
  match students.get? (2 * k), students.get? (2 * k + 1) with
  | some a, some b =>
    [draw_pass env a exams true, draw_pass env b exams false, .divider]
  | some a, none => [draw_pass env a exams true, .divider]
  | none, _ => []

/-- Reference page list: students consumed two at a time. -/
def pagesOf (env : RenderEnv) (exams : List Exam) : List Student → List (List Op)
  | [] => []
  | [s] => [[draw_pass env s exams true, .divider]]
  | s1 :: s2 :: rest =>
    [draw_pass env s1 exams true, draw_pass env s2 exams false, .divider]
      :: pagesOf env exams rest

/-! ## Orchestrator statistics (src/services/pass_generator.py) -/

/-- Per-school pass-student counter: the inner grade loop of
`generate_all_passes`, accumulating `len(grade_students)` for exactly the
grades whose exam filter is non-empty (a TypeError from the filter's sort
propagates). -/
def gradePassCount (exams : List Exam) (school : String) :
    List (String × List Student) → Nat → Except Unit Nat
  | [], acc => .ok acc
  | (grade, gstudents) :: rest, acc => do
    let gexams ← filter_exams_for_grade_and_school exams grade school
    if gexams = [] then gradePassCount exams school rest acc
    else gradePassCount exams school rest (acc + gstudents.length)

/-- First loop of `generate_all_passes` over the grouped schools: schools
absent from the school table are skipped with a warning; for the others the
per-grade loop runs over the grade items sorted by extracted grade number
and `student_counts[school]` is assigned. -/
def schoolsLoop (exams : List Exam) (schoolNames : List String) :
    Grouped → List (String × Nat) → Except Unit (List (String × Nat))
  | [], counts => .ok counts
  | (schoolName, grades) :: rest, counts =>
    if schoolName ∈ schoolNames then do
      let n ← gradePassCount exams schoolName (sorted_grade_items grades) 0
      schoolsLoop exams schoolNames rest (counts ++ [(schoolName, n)])
    else schoolsLoop exams schoolNames rest counts

/-- Second loop of `generate_all_passes`: any grouped school still missing
from `student_counts` is recorded as 0. -/
def defaultZeroLoop : Grouped → List (String × Nat) → List (String × Nat)
  | [], counts => counts
  | (schoolName, _) :: rest, counts =>
    defaultZeroLoop rest
      (if alookup schoolName counts = none then counts ++ [(schoolName, 0)] else counts)

/-- Statistics view of `generate_all_passes`: the `student_counts` and
`grade_counts` accumulators after the run; empty student or exam input
returns early with both accumulators untouched. -/
def generate_all_passes_stats (students : List Student) (exams : List Exam)
    (schoolNames : List String) :
    Except Unit (List (String × Nat) × List (String × Nat)) :=
  if students = [] then .ok ([], [])
  else if exams = [] then .ok ([], [])
  else do
    let sc0 ← schoolsLoop exams schoolNames
      (group_students_by_school_and_grade students) []
    pure (defaultZeroLoop (group_students_by_school_and_grade students) sc0,
      (group_students_by_school_and_grade students).map
        (fun sg => (sg.1, (sg.2.map (fun gb => gb.2.length)).sum)))

/-- Model of `get_school_student_count` / `get_total_school_students`:
`dict.get(name, 0)` on the respective accumulator. -/
def statCount (counts : List (String × Nat)) (school_name : String) : Nat :=
  (alookup school_name counts).getD 0

/-! ## Concrete fixtures used in instance theorems -/

/-- Exam fixture with a given date and otherwise empty fields. -/
def mkExam (date : String) : Exam := ⟨"", "", date, "", "", "", "", ""⟩

/-- Matching exam with a parseable date. -/
def exParseable : Exam :=
  ⟨"IGCSE", "Mathematics", "6/8/25", "Wednesday", "morning", "S", "Term I", "2025-26"⟩

/-- Matching exam with an unparseable date. -/
def exRaw : Exam :=
  ⟨"IGCSE", "Physics", "not-a-date", "Thursday", "morning", "S", "Term I", "2025-26"⟩

/-- Second matching exam with a parseable date, earlier than `exParseable`. -/
def exParseable2 : Exam :=
  ⟨"IGCSE", "Chemistry", "5/8/25", "Tuesday", "morning", "S", "Term I", "2025-26"⟩

/-- Student fixture with a given name and section. -/
def mkStudent (name sec : String) : Student := ⟨name, "S", "Grade 09", sec, none⟩

end PassGen

namespace PassGen

/-! ## Shared lemmas: stability of Python's sort -/

/-- Ordered insertion of an element the filter rejects leaves the filtered
view unchanged. -/
theorem filter_orderedInsert_neg (le : α → α → Prop) [DecidableRel le] (p : α → Bool)
    (a : α) (ha : p a = false) :
    ∀ l : List α, (List.orderedInsert le a l).filter p = l.filter p
  | [] => by simp [List.orderedInsert, ha]
  | b :: t => by
    by_cases h : le a b
    · simp [List.orderedInsert, h, List.filter_cons, ha]
    · simp only [List.orderedInsert, if_neg h, List.filter_cons]
      rw [filter_orderedInsert_neg le p a ha t]

/-- Ordered insertion of an element the filter keeps prepends it to the
filtered view, provided every element ordered strictly after it is
rejected. -/
theorem filter_orderedInsert_pos (le : α → α → Prop) [DecidableRel le] (p : α → Bool)
    (a : α) (ha : p a = true) :
    ∀ l : List α, (∀ b ∈ l, ¬le a b → p b = false) →
      (List.orderedInsert le a l).filter p = a :: l.filter p
  | [], _ => by simp [List.orderedInsert, ha]
  | b :: t, h => by
    by_cases hab : le a b
    · simp [List.orderedInsert, hab, List.filter_cons, ha]
    · have hb : p b = false := h b (List.mem_cons_self b t) hab
      simp only [List.orderedInsert, if_neg hab, List.filter_cons, hb]
      simp only [Bool.false_eq_true, if_neg]
      rw [filter_orderedInsert_pos le p a ha t (fun c hc => h c (List.mem_cons_of_mem b hc))]
      simp

/-- Stability of `List.insertionSort` (the model of CPython's stable sort):
the filtered view of the output along any class of mutually ≼-related
elements is the filtered view of the input, i.e. elements of one key class
keep their input order. -/
theorem filter_insertionSort (le : α → α → Prop) [DecidableRel le] (p : α → Bool)
    (hp : ∀ x y, p x = true → p y = true → le x y) :
    ∀ l : List α, (List.insertionSort le l).filter p = l.filter p
  | [] => rfl
  | a :: t => by
    by_cases ha : p a = true
    · rw [List.insertionSort,
        filter_orderedInsert_pos le p a ha _
          (fun b _ hab => by
            by_cases hb : p b = true
            · exact absurd (hp a b ha hb) hab
            · simpa using hb),
        filter_insertionSort le p hp t]
      simp [List.filter_cons, ha]
    · have ha' : p a = false := by simpa using ha
      rw [List.insertionSort, filter_orderedInsert_neg le p a ha',
        filter_insertionSort le p hp t]
      simp [List.filter_cons, ha']

/-! ## C8 — grade vocabulary mapping -/

/-- C8: grade_label_for_exams maps "Grade 10"/"Grade 11"/"Grade 12" to
"IGCSE"/"AS LEVEL"/"A LEVEL" and is the identity on any other input; in
particular "Grade 10" maps to "IGCSE" and "Grade 13" to itself. -/
theorem C8_grade_label_for_exams :
    map_student_grade_to_exam_grade "Grade 10" = "IGCSE"
    ∧ map_student_grade_to_exam_grade "Grade 11" = "AS LEVEL"
    ∧ map_student_grade_to_exam_grade "Grade 12" = "A LEVEL"
    ∧ map_student_grade_to_exam_grade "Grade 13" = "Grade 13"
    ∧ ∀ g : String, g ≠ "Grade 10" → g ≠ "Grade 11" → g ≠ "Grade 12" →
        map_student_grade_to_exam_grade g = g := by
  refine ⟨by decide, by decide, by decide, by decide, ?_⟩
  intro g h10 h11 h12
  simp [map_student_grade_to_exam_grade, h10, h11, h12]

/-- Witness for C8 at the concrete input "Grade 09". -/
theorem C8_grade_label_for_exams_witness :
    map_student_grade_to_exam_grade "Grade 09" = "Grade 09" :=
  C8_grade_label_for_exams.2.2.2.2 "Grade 09" (by decide) (by decide) (by decide)

/-! ## C7 — output path derivation -/

/-- C7: the output path is output_root/school/"abbrev_grade_Passes_series.pdf",
with the fixed three-letter abbreviation table ("XXX" for unknown schools),
the Excel-Global-School display-grade remap, and spaces replaced by
underscores in the grade and series components. -/
theorem C7_output_path :
    (∀ root school grade series,
      get_output_path school grade series root =
        [root, school,
          get_school_abbreviation school ++ "_"
            ++ underscored (get_display_grade_for_school grade school)
            ++ "_Passes_" ++ underscored series ++ ".pdf"])
    ∧ get_school_abbreviation "Excel Central School" = "ECS"
    ∧ get_school_abbreviation "Excel Global School" = "EGS"
    ∧ get_school_abbreviation "Excel Pathway School" = "EPS"
    ∧ (∀ s, s ≠ "Excel Central School" → s ≠ "Excel Global School" →
        s ≠ "Excel Pathway School" → get_school_abbreviation s = "XXX")
    ∧ (∀ g s, s ≠ "Excel Global School" → get_display_grade_for_school g s = g)
    ∧ get_display_grade_for_school "Grade 09" "Excel Global School" = "IGCSE Jr"
    ∧ get_display_grade_for_school "Grade 10" "Excel Global School" = "IGCSE"
    ∧ get_display_grade_for_school "Grade 11" "Excel Global School" = "AS Level"
    ∧ get_display_grade_for_school "Grade 12" "Excel Global School" = "A Level"
    ∧ (∀ g, g ≠ "Grade 09" → g ≠ "Grade 10" → g ≠ "Grade 11" → g ≠ "Grade 12" →
        get_display_grade_for_school g "Excel Global School" = g) := by
  refine ⟨fun root school grade series => rfl, by decide, by decide, by decide,
    ?_, ?_, by decide, by decide, by decide, by decide, ?_⟩
  · intro s h1 h2 h3
    simp [get_school_abbreviation, h1, h2, h3]
  · intro g s hs
    simp [get_display_grade_for_school, hs]
  · intro g h09 h10 h11 h12
    simp [get_display_grade_for_school, h09, h10, h11, h12]

/-- Witness for C7: a school outside the table and a grade outside the remap
at concrete inputs. -/
theorem C7_output_path_witness :
    get_output_path "Some School" "Grade 03" "Term I" "output" =
      ["output", "Some School", "XXX_Grade_03_Passes_Term_I.pdf"] := by
  rw [C7_output_path.1 "output" "Some School" "Grade 03" "Term I",
    C7_output_path.2.2.2.2.1 "Some School" (by decide) (by decide) (by decide),
    C7_output_path.2.2.2.2.2.1 "Grade 03" "Some School" (by decide)]
  decide

/-! ## C4 — formatted_date -/

/-- C4: formatted_date tries the ordered list of accepted formats on the
whitespace-stripped date and re-renders the first match as "DD Mon YYYY";
when no format matches the original string is returned unchanged; in
particular "6/8/25" renders day-first as "06 Aug 2025" and "not-a-date" is
passed through. -/
theorem C4_formatted_date :
    (∀ e : Exam,
      (tryFormats examDateFormats (pystrip e.exam_date) = none →
        e.formatted_date = e.exam_date)
      ∧ (∀ d, tryFormats examDateFormats (pystrip e.exam_date) = some d →
        e.formatted_date = strftimeDbY d))
    ∧ (mkExam "6/8/25").formatted_date = "06 Aug 2025"
    ∧ (mkExam "not-a-date").formatted_date = "not-a-date" := by
  refine ⟨fun e => ⟨fun h => ?_, fun d h => ?_⟩, by decide, by decide⟩
  · unfold Exam.formatted_date
    rw [h]
  · unfold Exam.formatted_date
    rw [h]

/-- Witness for C4 at concrete inputs discharging both hypotheses. -/
theorem C4_formatted_date_witness :
    (mkExam "not-a-date").formatted_date = (mkExam "not-a-date").exam_date
    ∧ (mkExam "6/8/25").formatted_date = strftimeDbY ⟨2025, 8, 6⟩ :=
  ⟨(C4_formatted_date.1 (mkExam "not-a-date")).1 (by decide),
   (C4_formatted_date.1 (mkExam "6/8/25")).2 ⟨2025, 8, 6⟩ (by decide)⟩

/-! ## C5 — orchestrator grade iteration order -/

/-- Counterexample to C5: `_extract_grade_number` returns 0 on a label whose
number cannot be extracted, so "Kindergarten" (unparseable) sorts before
"Grade 01" (numeric) — not after all numeric grades as the claim states. -/
theorem C5_grade_order_counterexample :
    sorted_grade_items [("Grade 01", []), ("Kindergarten", [])] =
      [("Kindergarten", []), ("Grade 01", [])]
    ∧ int_of_pystring "Kindergarten" = none
    ∧ extract_grade_number "Kindergarten" = 0
    ∧ extract_grade_number "Grade 01" = 1 := by
  refine ⟨?_, by decide, by decide, by decide⟩
  decide

/-- C5 (amended): grades iterate in ascending order of the extracted grade
number, stably, where a label whose last whitespace token is not an integer
literal — or that has no token at all — is assigned the number 0 and hence
sorts before every grade with a positive number, not last. -/
theorem C5_grade_order (grades : List (String × List Student)) :
    (sorted_grade_items grades).Pairwise gradeItemLe
    ∧ (sorted_grade_items grades).Perm grades
    ∧ (∀ n : Int, (sorted_grade_items grades).filter
        (fun it => decide (extract_grade_number it.1 = n)) =
        grades.filter (fun it => decide (extract_grade_number it.1 = n)))
    ∧ (∀ label tok, (pysplit label).getLast? = some tok →
        int_of_pystring tok = none → extract_grade_number label = 0)
    ∧ (∀ label, (pysplit label).getLast? = none → extract_grade_number label = 0) := by
  refine ⟨List.sorted_insertionSort gradeItemLe grades,
    List.perm_insertionSort gradeItemLe grades, ?_, ?_, ?_⟩
  · intro n
    refine filter_insertionSort gradeItemLe _ ?_ grades
    intro x y hx hy
    simp only [decide_eq_true_eq] at hx hy
    unfold gradeItemLe
    rw [hx, hy]
  · intro label tok hlast hnone
    unfold extract_grade_number
    rw [hlast]
    simp [hnone]
  · intro label hlast
    unfold extract_grade_number
    rw [hlast]

/-- Witness for C5 at concrete inputs discharging both hypotheses. -/
theorem C5_grade_order_witness :
    (sorted_grade_items [("Grade 02", []), ("Grade 01", [])]).Perm
      [("Grade 02", []), ("Grade 01", [])]
    ∧ extract_grade_number "Grade X" = 0
    ∧ extract_grade_number "" = 0 :=
  ⟨(C5_grade_order [("Grade 02", []), ("Grade 01", [])]).2.1,
   (C5_grade_order []).2.2.2.1 "Grade X" "X" (by decide) (by decide),
   (C5_grade_order []).2.2.2.2 "" (by decide)⟩

/-! ## C6 — failure flag of generate_grade_passes -/

/-- C6: generate_grade_passes reports failure only through its boolean
result, and the result is `true` exactly when neither opening nor saving the
PDF target raises; the per-image and per-field environment (missing or
unreadable crest and signature images) never affects the outcome, and
missing enrollment codes or unparseable dates render as a blank cell or the
raw string inside the pass without failing. -/
theorem C6_failure_flag :
    (∀ env students exams,
      (generate_grade_passes env students exams).1 = true ↔
        (env.openFails = false ∧ env.saveFails = false))
    ∧ (∀ env1 env2 students exams,
        env1.openFails = env2.openFails → env1.saveFails = env2.saveFails →
        (generate_grade_passes env1 students exams).1 =
          (generate_grade_passes env2 students exams).1)
    ∧ (∀ env st exams lft, st.enrollment_code = none →
        draw_pass env st exams lft =
          Op.passOp st lft (env.logoExists && !env.logoFails)
            ("Examination Entry Pass - " ++
              (match exams.head? with
                | some e => e.exam_name
                | none => "Term I"))
            [("Student Name", st.name),
             ("Grade & Section", st.grade_section),
             ("Enrollment Code", "")]
            (exams.map
              (fun e => [e.subject, e.formatted_date, e.day, pycapitalize e.timing]))
            (env.sigExists && !env.sigFails)) := by
  refine ⟨?_, ?_, ?_⟩
  · intro env students exams
    unfold generate_grade_passes
    cases h1 : env.openFails <;> cases h2 : env.saveFails <;> simp
  · intro env1 env2 students exams h1 h2
    unfold generate_grade_passes
    rw [h1, h2]
    cases env2.openFails <;> cases env2.saveFails <;> simp
  · intro env st exams lft hnone
    unfold draw_pass
    rw [hnone]
    rfl

/-- Witness for C6 at a concrete environment discharging the hypotheses. -/
theorem C6_failure_flag_witness :
    (generate_grade_passes ⟨false, false, false, true, true, true⟩ [] []).1 = true
    ∧ draw_pass ⟨false, false, false, false, false, false⟩ (mkStudent "A" "B") [] true =
      Op.passOp (mkStudent "A" "B") true false "Examination Entry Pass - Term I"
        [("Student Name", "A"), ("Grade & Section", "Grade 09 B"),
         ("Enrollment Code", "")] [] false :=
  ⟨(C6_failure_flag.1 ⟨false, false, false, true, true, true⟩ [] []).mpr ⟨rfl, rfl⟩,
   by
    rw [C6_failure_flag.2.2 ⟨false, false, false, false, false, false⟩
      (mkStudent "A" "B") [] true rfl]
    decide⟩

/-! ## C1 — pagination of generate_grade_passes -/

/-- Running the pass loop from an empty current page and saving appends
exactly the two-at-a-time pages of the student list. -/
theorem passLoop_save (env : RenderEnv) (exams : List Exam) :
    ∀ (students : List Student) (P : List (List Op)), students ≠ [] →
      (passLoop env exams students ⟨P, []⟩).save = P ++ pagesOf env exams students
  | [], _, h => absurd rfl h
  | [s], P, _ => by
    simp [passLoop, pagesOf, Canvas.emit, Canvas.save]
  | s1 :: s2 :: rest, P, _ => by
    cases rest with
    | nil =>
      simp [passLoop, pagesOf, Canvas.emit, Canvas.save]
    | cons r rs =>
      have ih := passLoop_save env exams (r :: rs)
        (P ++ [[draw_pass env s1 exams true, draw_pass env s2 exams false, Op.divider]])
        (by simp)
      simp only [passLoop, Canvas.emit, Canvas.showPage, List.nil_append]
      have hl : ([draw_pass env s1 exams true] ++ [draw_pass env s2 exams false]
          ++ [Op.divider] : List Op) =
          [draw_pass env s1 exams true, draw_pass env s2 exams false, Op.divider] := by
        simp
      rw [hl, ih]
      simp [pagesOf]

/-- The number of two-at-a-time pages is the number of students rounded up
to pairs. -/
theorem pagesOf_length (env : RenderEnv) (exams : List Exam) :
    ∀ students : List Student,
      (pagesOf env exams students).length = (students.length + 1) / 2
  | [] => by simp [pagesOf]
  | [_] => by simp [pagesOf]
  | s1 :: s2 :: rest => by
    simp [pagesOf, pagesOf_length env exams rest]
    omega

/-- Page `k` of the two-at-a-time layout holds student `2k` on the left and
student `2k+1` (when present) on the right. -/
theorem pagesOf_get (env : RenderEnv) (exams : List Exam) :
    ∀ (students : List Student) (k : Nat), k < (pagesOf env exams students).length →
      (pagesOf env exams students)[k]? = some (expectedPage env exams students k)
  | [], k, h => by simp [pagesOf] at h
  | [s], k, h => by
    have hk : k = 0 := by simpa [pagesOf] using h
    subst hk
    simp [pagesOf, expectedPage]
  | s1 :: s2 :: rest, k, h => by
    cases k with
    | zero => simp [pagesOf, expectedPage]
    | succ k' =>
      have h' : k' < (pagesOf env exams rest).length := by
        simpa [pagesOf] using h
      have ih := pagesOf_get env exams rest k' h'
      simp only [pagesOf, List.getElem?_cons_succ]
      rw [ih]
      rfl

/-- No page of the two-at-a-time layout is blank. -/
theorem pagesOf_ne_nil (env : RenderEnv) (exams : List Exam) :
    ∀ students : List Student, ∀ page ∈ pagesOf env exams students, page ≠ []
  | [], page => by simp [pagesOf]
  | [s], page => by
    intro hp
    simp [pagesOf] at hp
    simp [hp]
  | s1 :: s2 :: rest, page => by
    intro hp
    simp only [pagesOf, List.mem_cons] at hp
    rcases hp with h | h
    · simp [h]
    · exact pagesOf_ne_nil env exams rest page h

/-- C1: when opening and saving succeed, the generated document for a
non-empty roster lays students out two per page — student `2k` as the left
pass of page `k`, student `2k+1` (when it exists) as the right pass, the
right pass omitted on the final page of an odd roster — with exactly
ceil(n/2) pages and no blank trailing page. -/
theorem C1_two_per_page (env : RenderEnv) (students : List Student) (exams : List Exam)
    (hopen : env.openFails = false) (hsave : env.saveFails = false)
    (hne : students ≠ []) :
    (generate_grade_passes env students exams).1 = true
    ∧ (generate_grade_passes env students exams).2.length = (students.length + 1) / 2
    ∧ (∀ k, k < (generate_grade_passes env students exams).2.length →
        (generate_grade_passes env students exams).2[k]? =
          some (expectedPage env exams students k))
    ∧ (∀ page ∈ (generate_grade_passes env students exams).2, page ≠ []) := by
  have hgen : generate_grade_passes env students exams =
      (true, pagesOf env exams students) := by
    unfold generate_grade_passes
    rw [hopen, hsave]
    simpa using passLoop_save env exams students [] hne
  rw [hgen]
  exact ⟨rfl, pagesOf_length env exams students,
    fun k h => pagesOf_get env exams students k h,
    pagesOf_ne_nil env exams students⟩

/-- Witness for C1: three students yield a two-page document whose second
page holds the third student alone as the left pass. -/
theorem C1_two_per_page_witness :
    (generate_grade_passes ⟨false, false, false, false, false, false⟩
        [mkStudent "A" "A", mkStudent "B" "A", mkStudent "C" "B"] []).2.length = 2
    ∧ (generate_grade_passes ⟨false, false, false, false, false, false⟩
        [mkStudent "A" "A", mkStudent "B" "A", mkStudent "C" "B"] []).2[1]? =
      some [draw_pass ⟨false, false, false, false, false, false⟩
        (mkStudent "C" "B") [] true, Op.divider] :=
  ⟨(C1_two_per_page ⟨false, false, false, false, false, false⟩
      [mkStudent "A" "A", mkStudent "B" "A", mkStudent "C" "B"] [] rfl rfl
      (by simp)).2.1,
   by
    rw [(C1_two_per_page ⟨false, false, false, false, false, false⟩
      [mkStudent "A" "A", mkStudent "B" "A", mkStudent "C" "B"] [] rfl rfl
      (by simp)).2.2.1 1 (by decide)]
    rfl⟩

/-! ## C2 — exam filtering and date-keyed sort -/

/-- The sort key of an exam is a datetime exactly when its date parses. -/
theorem examSortKey_isLeft (e : Exam) :
    (examSortKey e).isLeft = (parse_date e.exam_date).isSome := by
  unfold examSortKey
  cases hp : parse_date e.exam_date <;> simp [hp]

/-- Key comparison never raises between keys on the same side of the
datetime/str divide, and there it computes the total key order. -/
theorem keyCmp_agree (k1 k2 : Sum Date String) (hhom : k1.isLeft = k2.isLeft) :
    keyCmp k1 k2 = .ok (decide (keyLeT k1 k2)) := by
  cases k1 with
  | inl d1 =>
    cases k2 with
    | inl d2 =>
      show Except.ok (dateLe d1 d2) = .ok (decide (keyLeT (Sum.inl d1) (Sum.inl d2)))
      have hK : decide (keyLeT (Sum.inl d1) (Sum.inl d2)) = dateLe d1 d2 := by
        show decide (dateLe d1 d2 = true) = dateLe d1 d2
        cases dateLe d1 d2 <;> rfl
      rw [hK]
    | inr s2 => simp at hhom
  | inr s1 =>
    cases k2 with
    | inl d2 => simp at hhom
    | inr s2 => rfl

/-- Reduction of an `Except` bind on a success value. -/
theorem ok_bind_eq {ε α β : Type} (a : α) (f : α → Except ε β) :
    (Except.ok a : Except ε α) >>= f = f a := rfl

/-- Reduction of an `Except` pure. -/
theorem pure_eq_ok {ε α : Type} (a : α) :
    (pure a : Except ε α) = Except.ok a := rfl

/-- Monadic ordered insertion agrees with `List.orderedInsert` when the
comparison succeeds against every element of the target list. -/
theorem orderedInsertE_ok {α : Type} (cmp : α → α → Except Unit Bool)
    (r : α → α → Prop) [DecidableRel r] (a : α) :
    ∀ l : List α, (∀ c ∈ l, cmp a c = .ok (decide (r a c))) →
      orderedInsertE cmp a l = .ok (List.orderedInsert r a l)
  | [], _ => rfl
  | b :: t, h => by
    have hb := h b (List.mem_cons_self b t)
    by_cases hr : r a b
    · have hd : decide (r a b) = true := by simp [hr]
      simp [orderedInsertE, hb, hd, ok_bind_eq, pure_eq_ok, List.orderedInsert, hr]
    · have hd : decide (r a b) = false := by simp [hr]
      have ih := orderedInsertE_ok cmp r a t
        (fun c hc => h c (List.mem_cons_of_mem b hc))
      simp [orderedInsertE, hb, hd, ok_bind_eq, pure_eq_ok, ih, List.orderedInsert, hr]

/-- The monadic sort agrees with the stable `List.insertionSort` when the
comparison succeeds on every pair of list elements. -/
theorem insertionSortE_ok {α : Type} (cmp : α → α → Except Unit Bool)
    (r : α → α → Prop) [DecidableRel r] :
    ∀ l : List α, (∀ a ∈ l, ∀ b ∈ l, cmp a b = .ok (decide (r a b))) →
      insertionSortE cmp l = .ok (List.insertionSort r l)
  | [], _ => rfl
  | b :: t, h => by
    have ih := insertionSortE_ok cmp r t
      (fun x hx y hy => h x (List.mem_cons_of_mem b hx) y (List.mem_cons_of_mem b hy))
    have hins := orderedInsertE_ok cmp r b (List.insertionSort r t)
      (fun c hc => h b (List.mem_cons_self b t) c
        (List.mem_cons_of_mem b ((List.mem_insertionSort r).1 hc)))
    simp [insertionSortE, ih, ok_bind_eq, List.insertionSort, hins]

/-- Counterexample to C2: on a matching pair mixing a parseable date with an
unparseable one, the sort compares a datetime key against a str key and
raises TypeError instead of returning a sorted list. -/
theorem C2_exams_for_counterexample :
    filter_exams_for_grade_and_school [exParseable, exRaw] "Grade 10" "S" =
      .error () := by
  rfl

/-- C2 (amended): exams_for returns exactly the matching exams sorted
ascending by the parse-or-raw key, and returns the empty list when nothing
matches, provided the matching exams' keys are homogeneous (all dates
parseable or none parseable); when the matching set mixes the two, the
underlying sort raises TypeError (previous theorem). -/
theorem C2_exams_for (exams : List Exam) (grade school : String)
    (hhom : (∀ e ∈ matchedExams exams grade school, (parse_date e.exam_date).isSome)
      ∨ (∀ e ∈ matchedExams exams grade school, parse_date e.exam_date = none)) :
    ∃ res, filter_exams_for_grade_and_school exams grade school = .ok res
      ∧ res.Perm (matchedExams exams grade school)
      ∧ res.Pairwise examLeT
      ∧ (matchedExams exams grade school = [] → res = []) := by
  have hagree : ∀ a ∈ matchedExams exams grade school,
      ∀ b ∈ matchedExams exams grade school,
      keyCmp (examSortKey a) (examSortKey b) = .ok (decide (examLeT a b)) := by
    intro a ha b hb
    have hiso : (examSortKey a).isLeft = (examSortKey b).isLeft := by
      rcases hhom with h | h
      · rw [examSortKey_isLeft, examSortKey_isLeft, h a ha, h b hb]
      · rw [examSortKey_isLeft, examSortKey_isLeft, h a ha, h b hb]
    exact keyCmp_agree (examSortKey a) (examSortKey b) hiso
  refine ⟨List.insertionSort examLeT (matchedExams exams grade school), ?_, ?_, ?_, ?_⟩
  · unfold filter_exams_for_grade_and_school
    exact insertionSortE_ok _ examLeT _ hagree
  · exact List.perm_insertionSort examLeT _
  · exact List.sorted_insertionSort examLeT _
  · intro h
    rw [h]
    rfl

/-- Witness for C2 at a concrete all-parseable input. -/
theorem C2_exams_for_witness :
    ∃ res, filter_exams_for_grade_and_school [exParseable, exParseable2] "Grade 10" "S"
        = .ok res
      ∧ res.Perm (matchedExams [exParseable, exParseable2] "Grade 10" "S")
      ∧ res.Pairwise examLeT
      ∧ (matchedExams [exParseable, exParseable2] "Grade 10" "S" = [] → res = []) :=
  C2_exams_for [exParseable, exParseable2] "Grade 10" "S" (Or.inl (by decide))

/-! ## C3 — grouping: partition, order, stability -/

/-- Lookup after an upsert: the upserted key holds the updated value (from
the default when absent), every other key is untouched. -/
theorem alookup_upsert {β : Type} (k k' : String) (d : β) (f : β → β) :
    ∀ l : List (String × β),
      alookup k (upsert k' d f l) =
        if k' = k then some (f ((alookup k l).getD d)) else alookup k l
  | [] => by
    by_cases h : k' = k <;> simp [upsert, alookup, h]
  | (k0, v) :: rest => by
    by_cases h0 : k0 = k' <;> by_cases h1 : k0 = k
    · subst h0; subst h1
      simp [upsert, alookup]
    · subst h0
      simp [upsert, alookup, h1]
    · subst h1
      have hk' : ¬k' = k0 := fun h => h0 h.symm
      simp [upsert, alookup, h0, hk']
    · simp [upsert, alookup, h0, h1, alookup_upsert k k' d f rest]

/-- A grouping step appends the student to exactly its own bucket. -/
theorem bucketOf_stepStudent (g : Grouped) (st : Student) (school grade : String) :
    bucketOf (stepStudent g st) school grade =
      bucketOf g school grade ++
        (if st.school = school ∧ st.grade = grade then [st] else []) := by
  unfold bucketOf stepStudent
  by_cases hs : st.school = school <;> by_cases hg : st.grade = grade <;>
    cases halo : alookup school g <;>
      simp [alookup_upsert, hs, hg, halo, alookup]

/-- Folding the grouping step appends, per bucket, exactly the matching
students in input order. -/
theorem bucketOf_foldl (school grade : String) :
    ∀ (l : List Student) (g : Grouped),
      bucketOf (l.foldl stepStudent g) school grade =
        bucketOf g school grade ++
          l.filter (fun st => st.school = school ∧ st.grade = grade)
  | [], g => by simp
  | s :: t, g => by
    rw [List.foldl_cons, bucketOf_foldl school grade t (stepStudent g s),
      bucketOf_stepStudent, List.filter_cons]
    by_cases h : s.school = school ∧ s.grade = grade
    · simp [h]
    · simp [h]

/-- Lookup commutes with a value-wise map of the association list. -/
theorem alookup_map {β γ : Type} (f : β → γ) (k : String) :
    ∀ l : List (String × β),
      alookup k (l.map (fun p => (p.1, f p.2))) = (alookup k l).map f
  | [] => rfl
  | (k0, v) :: rest => by
    by_cases h : k0 = k <;> simp [alookup, h, alookup_map f k rest]

/-- Each bucket of the grouped output is the sorted version of the
corresponding raw bucket. -/
theorem bucketOf_group (students : List Student) (school grade : String) :
    bucketOf (group_students_by_school_and_grade students) school grade =
      List.insertionSort studentLe (bucketOf (groupFold students) school grade) := by
  unfold group_students_by_school_and_grade bucketOf
  rw [alookup_map]
  cases h : alookup school (groupFold students) with
  | none => simp
  | some grades =>
    simp only [Option.map_some']
    rw [alookup_map]
    cases h2 : alookup grade grades with
    | none => simp [List.insertionSort]
    | some bucket => simp

/-- Shuffling a singleton across an append is a permutation. -/
theorem append_singleton_shuffle {α : Type} (a : α) (xs ys : List α) :
    ((xs ++ [a]) ++ ys).Perm ((xs ++ ys) ++ [a]) := by
  have h1 : (xs ++ [a]) ++ ys = xs ++ ([a] ++ ys) := by rw [List.append_assoc]
  have h2 : (xs ++ ys) ++ [a] = xs ++ (ys ++ [a]) := by rw [List.append_assoc]
  rw [h1, h2]
  exact List.Perm.append_left xs List.perm_append_comm

/-- Upserting a student into a grade dict appends it, up to permutation. -/
theorem flattenGrades_upsert (grade : String) (st : Student) :
    ∀ grades : List (String × List Student),
      (flattenGrades (upsert grade [] (fun l => l ++ [st]) grades)).Perm
        (flattenGrades grades ++ [st])
  | [] => by simp [upsert, flattenGrades]
  | (k, b) :: rest => by
    by_cases h : k = grade
    · simp only [upsert, if_pos h, flattenGrades, List.flatMap_cons]
      exact append_singleton_shuffle st b (rest.flatMap (fun gb => gb.2))
    · simp only [upsert, if_neg h, flattenGrades, List.flatMap_cons]
      have := List.Perm.append_left b (flattenGrades_upsert grade st rest)
      simpa [List.append_assoc] using this

/-- A grouping step appends the student to the flattened structure, up to
permutation. -/
theorem flattenGroups_step (st : Student) :
    ∀ g : Grouped, (flattenGroups (stepStudent g st)).Perm (flattenGroups g ++ [st])
  | [] => by
    simp only [stepStudent, flattenGroups, upsert, List.flatMap_cons, List.flatMap_nil,
      List.append_nil, List.nil_append]
    simp [flattenGrades, upsert]
  | (k, grades) :: rest => by
    unfold stepStudent
    by_cases h : k = st.school
    · simp only [upsert, if_pos h, flattenGroups, List.flatMap_cons]
      refine List.Perm.trans
        (List.Perm.append_right _ (flattenGrades_upsert st.grade st grades)) ?_
      exact append_singleton_shuffle st (flattenGrades grades)
        (rest.flatMap (fun sg => flattenGrades sg.2))
    · simp only [upsert, if_neg h, flattenGroups, List.flatMap_cons]
      have := List.Perm.append_left (flattenGrades grades) (flattenGroups_step st rest)
      simpa [List.append_assoc, flattenGroups] using this

/-- Folding the grouping step appends all students, up to permutation. -/
theorem flattenGroups_foldl :
    ∀ (l : List Student) (g : Grouped),
      (flattenGroups (l.foldl stepStudent g)).Perm (flattenGroups g ++ l)
  | [], g => by simp
  | s :: t, g => by
    rw [List.foldl_cons]
    refine (flattenGroups_foldl t (stepStudent g s)).trans ?_
    refine (List.Perm.append_right t (flattenGroups_step s g)).trans ?_
    simp [List.append_assoc]

/-- Sorting every bucket does not change the flattened multiset. -/
theorem flattenGrades_sortPerm :
    ∀ grades : List (String × List Student),
      (flattenGrades (grades.map
          (fun gb => (gb.1, List.insertionSort studentLe gb.2)))).Perm
        (flattenGrades grades)
  | [] => List.Perm.refl _
  | (k, b) :: rest => by
    simp only [List.map_cons, flattenGrades, List.flatMap_cons]
    exact List.Perm.append (List.perm_insertionSort studentLe b)
      (flattenGrades_sortPerm rest)

/-- Sorting every bucket of every school does not change the flattened
multiset. -/
theorem flattenGroups_sortPerm :
    ∀ g : Grouped,
      (flattenGroups (g.map (fun sg => (sg.1, sg.2.map
          (fun gb => (gb.1, List.insertionSort studentLe gb.2)))))).Perm
        (flattenGroups g)
  | [] => List.Perm.refl _
  | (k, grades) :: rest => by
    simp only [List.map_cons, flattenGroups, List.flatMap_cons]
    exact List.Perm.append (flattenGrades_sortPerm grades)
      (flattenGroups_sortPerm rest)

/-- C3: group() partitions the input students — flattening the output is a
permutation of the input — and each (school, grade) bucket is exactly the
matching students stably sorted by (section, name): sorted pairwise, and
each equal-key class keeps its original input order. -/
theorem C3_group_partition_sorted_stable (students : List Student) :
    (flattenGroups (group_students_by_school_and_grade students)).Perm students
    ∧ (∀ school grade,
        bucketOf (group_students_by_school_and_grade students) school grade =
          List.insertionSort studentLe
            (students.filter (fun st => st.school = school ∧ st.grade = grade)))
    ∧ (∀ school grade,
        (bucketOf (group_students_by_school_and_grade students) school grade).Pairwise
          studentLe)
    ∧ (∀ school grade sec nm,
        (bucketOf (group_students_by_school_and_grade students) school grade).filter
            (fun st => st.«section» = sec ∧ st.name = nm) =
          students.filter
            (fun st => st.school = school ∧ st.grade = grade
              ∧ st.«section» = sec ∧ st.name = nm)) := by
  have hbucket : ∀ school grade,
      bucketOf (group_students_by_school_and_grade students) school grade =
        List.insertionSort studentLe
          (students.filter (fun st => st.school = school ∧ st.grade = grade)) := by
    intro school grade
    rw [bucketOf_group]
    unfold groupFold
    rw [bucketOf_foldl school grade students []]
    simp [bucketOf, alookup]
  refine ⟨?_, hbucket, ?_, ?_⟩
  · refine (flattenGroups_sortPerm (groupFold students)).trans ?_
    have := flattenGroups_foldl students []
    unfold groupFold
    simpa [flattenGroups] using this
  · intro school grade
    rw [hbucket]
    exact List.sorted_insertionSort studentLe _
  · intro school grade sec nm
    rw [hbucket]
    rw [filter_insertionSort studentLe _
      (fun x y hx hy => by
        simp only [decide_eq_true_eq] at hx hy
        exact Or.inr ⟨hx.1.trans hy.1.symm, le_of_eq (hx.2.trans hy.2.symm)⟩)]
    rw [List.filter_filter]
    refine List.filter_congr ?_
    intro st hst
    rw [← Bool.decide_and]
    exact decide_eq_decide.mpr (by tauto)

/-! ## C9 — agreement of the two date parsers -/

/-- Splitting a successful `Option.orElse`. -/
theorem orElse_eq_some {α : Type} {a b : Option α} {v : α} (h : (a <|> b) = some v) :
    a = some v ∨ (a = none ∧ b = some v) := by
  cases a <;> simp_all

/-- A successful format match consumes only digits and the format's literal
separators. -/
theorem matchFmt_chars :
    ∀ (items : List FmtItem),
      (∀ c0, FmtItem.lit c0 ∈ items → c0 = '/' ∨ c0 = '-') →
    ∀ (cs : List Char) (f acc : PFields), matchFmt items cs f = some acc →
      ∀ c ∈ cs, c.isDigit = true ∨ c = '/' ∨ c = '-'
  | [], _, cs, f, acc, h => by
    cases cs with
    | nil => intro c hc; cases hc
    | cons x rest => unfold matchFmt at h; cases h
  | .lit c0 :: items', hlit, cs, f, acc, h => by
    have hl2 : ∀ c1, FmtItem.lit c1 ∈ items' → c1 = '/' ∨ c1 = '-' :=
      fun c1 hc1 => hlit c1 (List.mem_cons_of_mem _ hc1)
    cases cs with
    | nil => unfold matchFmt at h; cases h
    | cons x rest =>
      unfold matchFmt at h
      by_cases hx : x = c0
      · rw [if_pos hx] at h
        intro c hc
        rcases List.mem_cons.1 hc with rfl | hc'
        · rcases hlit c0 (List.mem_cons_self _ _) with h0 | h0
          · exact Or.inr (Or.inl (hx.trans h0))
          · exact Or.inr (Or.inr (hx.trans h0))
        · exact matchFmt_chars items' hl2 rest f acc h c hc'
      · rw [if_neg hx] at h
        cases h
  | .d :: items', hlit, cs, f, acc, h => by
    have hl2 : ∀ c1, FmtItem.lit c1 ∈ items' → c1 = '/' ∨ c1 = '-' :=
      fun c1 hc1 => hlit c1 (List.mem_cons_of_mem _ hc1)
    cases cs with
    | nil => unfold matchFmt at h; cases h
    | cons c1 cs1 =>
      cases cs1 with
      | nil =>
        unfold matchFmt at h
        by_cases hcond : (c1.isDigit && decide (1 ≤ digitVal c1)) = true
        · rw [if_pos hcond] at h
          simp only [Bool.and_eq_true] at hcond
          intro c hc
          rcases List.mem_cons.1 hc with rfl | hc'
          · exact Or.inl hcond.1
          · cases hc'
        · rw [if_neg hcond] at h
          cases h
      | cons c2 cs2 =>
        unfold matchFmt at h
        rcases orElse_eq_some h with h1 | ⟨_, h2⟩
        · by_cases hcond : (c1.isDigit && c2.isDigit
              && decide (1 ≤ digitVal c1 * 10 + digitVal c2)
              && decide (digitVal c1 * 10 + digitVal c2 ≤ 31)) = true
          · rw [if_pos hcond] at h1
            simp only [Bool.and_eq_true] at hcond
            intro c hc
            rcases List.mem_cons.1 hc with rfl | hc'
            · exact Or.inl hcond.1.1.1
            rcases List.mem_cons.1 hc' with rfl | hc''
            · exact Or.inl hcond.1.1.2
            · exact matchFmt_chars items' hl2 cs2 _ acc h1 c hc''
          · rw [if_neg hcond] at h1
            cases h1
        · by_cases hcond : (c1.isDigit && decide (1 ≤ digitVal c1)) = true
          · rw [if_pos hcond] at h2
            simp only [Bool.and_eq_true] at hcond
            intro c hc
            rcases List.mem_cons.1 hc with rfl | hc'
            · exact Or.inl hcond.1
            · exact matchFmt_chars items' hl2 (c2 :: cs2) _ acc h2 c hc'
          · rw [if_neg hcond] at h2
            cases h2
  | .m :: items', hlit, cs, f, acc, h => by
    have hl2 : ∀ c1, FmtItem.lit c1 ∈ items' → c1 = '/' ∨ c1 = '-' :=
      fun c1 hc1 => hlit c1 (List.mem_cons_of_mem _ hc1)
    cases cs with
    | nil => unfold matchFmt at h; cases h
    | cons c1 cs1 =>
      cases cs1 with
      | nil =>
        unfold matchFmt at h
        by_cases hcond : (c1.isDigit && decide (1 ≤ digitVal c1)) = true
        · rw [if_pos hcond] at h
          simp only [Bool.and_eq_true] at hcond
          intro c hc
          rcases List.mem_cons.1 hc with rfl | hc'
          · exact Or.inl hcond.1
          · cases hc'
        · rw [if_neg hcond] at h
          cases h
      | cons c2 cs2 =>
        unfold matchFmt at h
        rcases orElse_eq_some h with h1 | ⟨_, h2⟩
        · by_cases hcond : (c1.isDigit && c2.isDigit
              && decide (1 ≤ digitVal c1 * 10 + digitVal c2)
              && decide (digitVal c1 * 10 + digitVal c2 ≤ 12)) = true
          · rw [if_pos hcond] at h1
            simp only [Bool.and_eq_true] at hcond
            intro c hc
            rcases List.mem_cons.1 hc with rfl | hc'
            · exact Or.inl hcond.1.1.1
            rcases List.mem_cons.1 hc' with rfl | hc''
            · exact Or.inl hcond.1.1.2
            · exact matchFmt_chars items' hl2 cs2 _ acc h1 c hc''
          · rw [if_neg hcond] at h1
            cases h1
        · by_cases hcond : (c1.isDigit && decide (1 ≤ digitVal c1)) = true
          · rw [if_pos hcond] at h2
            simp only [Bool.and_eq_true] at hcond
            intro c hc
            rcases List.mem_cons.1 hc with rfl | hc'
            · exact Or.inl hcond.1
            · exact matchFmt_chars items' hl2 (c2 :: cs2) _ acc h2 c hc'
          · rw [if_neg hcond] at h2
            cases h2
  | .y2 :: items', hlit, cs, f, acc, h => by
    have hl2 : ∀ c1, FmtItem.lit c1 ∈ items' → c1 = '/' ∨ c1 = '-' :=
      fun c1 hc1 => hlit c1 (List.mem_cons_of_mem _ hc1)
    cases cs with
    | nil => unfold matchFmt at h; cases h
    | cons c1 cs1 =>
      cases cs1 with
      | nil => unfold matchFmt at h; cases h
      | cons c2 cs2 =>
        unfold matchFmt at h
        by_cases hcond : (c1.isDigit && c2.isDigit) = true
        · rw [if_pos hcond] at h
          simp only [Bool.and_eq_true] at hcond
          intro c hc
          rcases List.mem_cons.1 hc with rfl | hc'
          · exact Or.inl hcond.1
          rcases List.mem_cons.1 hc' with rfl | hc''
          · exact Or.inl hcond.2
          · exact matchFmt_chars items' hl2 cs2 _ acc h c hc''
        · rw [if_neg hcond] at h
          cases h
  | .y4 :: items', hlit, cs, f, acc, h => by
    have hl2 : ∀ c1, FmtItem.lit c1 ∈ items' → c1 = '/' ∨ c1 = '-' :=
      fun c1 hc1 => hlit c1 (List.mem_cons_of_mem _ hc1)
    cases cs with
    | nil => unfold matchFmt at h; cases h
    | cons c1 cs1 =>
      cases cs1 with
      | nil => unfold matchFmt at h; cases h
      | cons c2 cs2 =>
        cases cs2 with
        | nil => unfold matchFmt at h; cases h
        | cons c3 cs3 =>
          cases cs3 with
          | nil => unfold matchFmt at h; cases h
          | cons c4 cs4 =>
            unfold matchFmt at h
            by_cases hcond : (c1.isDigit && c2.isDigit && c3.isDigit
                && c4.isDigit) = true
            · rw [if_pos hcond] at h
              simp only [Bool.and_eq_true] at hcond
              intro c hc
              rcases List.mem_cons.1 hc with rfl | hc'
              · exact Or.inl hcond.1.1.1
              rcases List.mem_cons.1 hc' with rfl | hc''
              · exact Or.inl hcond.1.1.2
              rcases List.mem_cons.1 hc'' with rfl | hc3
              · exact Or.inl hcond.1.2
              rcases List.mem_cons.1 hc3 with rfl | hc4
              · exact Or.inl hcond.2
              · exact matchFmt_chars items' hl2 cs4 _ acc h c hc4
            · rw [if_neg hcond] at h
              cases h

/-- A successful strptime consumes only digits and separators. -/
theorem strptime_chars (s : String) (fmt : List FmtItem) (d : Date)
    (hlits : ∀ c0, FmtItem.lit c0 ∈ fmt → c0 = '/' ∨ c0 = '-')
    (h : strptime s fmt = some d) :
    ∀ c ∈ s.toList, c.isDigit = true ∨ c = '/' ∨ c = '-' := by
  unfold strptime at h
  cases hm : matchFmt fmt s.toList ⟨1900, 1, 1⟩ with
  | none => rw [hm] at h; cases h
  | some f => exact matchFmt_chars fmt hlits s.toList _ f hm

/-- A successful strptime went through the datetime constructor, so the
month is in range. -/
theorem strptime_month_bounds (s : String) (fmt : List FmtItem) (d : Date)
    (h : strptime s fmt = some d) : 1 ≤ d.month ∧ d.month ≤ 12 := by
  unfold strptime at h
  cases hm : matchFmt fmt s.toList ⟨1900, 1, 1⟩ with
  | none => rw [hm] at h; cases h
  | some f =>
    rw [hm] at h
    simp only [mkValidDate] at h
    by_cases hcond : (decide (1 ≤ f.year) && decide (f.year ≤ 9999)
        && decide (1 ≤ f.month) && decide (f.month ≤ 12)
        && decide (1 ≤ f.day) && decide (f.day ≤ daysInMonth f.year f.month)) = true
    · rw [if_pos hcond] at h
      simp only [Bool.and_eq_true, decide_eq_true_eq] at hcond
      cases h
      exact ⟨hcond.1.1.1.2, hcond.1.1.2⟩
    · rw [if_neg hcond] at h
      cases h

/-- The head format wins, and later formats are examined only on failure. -/
theorem tryFormats_append (B : List (List FmtItem)) (s : String) :
    ∀ A, tryFormats (A ++ B) s =
      match tryFormats A s with
      | some d => some d
      | none => tryFormats B s
  | [] => by simp [tryFormats]
  | f :: A2 => by
    simp only [List.cons_append, tryFormats]
    cases strptime s f <;> simp [tryFormats_append B s A2]

/-- If the whole format list fails, every format of the list fails. -/
theorem tryFormats_none (s : String) :
    ∀ fmts, tryFormats fmts s = none → ∀ f ∈ fmts, strptime s f = none
  | [], _, f, hf => absurd hf (List.not_mem_nil f)
  | f0 :: rest, h, f, hf => by
    revert h
    unfold tryFormats
    cases h0 : strptime s f0 with
    | some d => intro h; cases h
    | none =>
      intro h
      rcases List.mem_cons.1 hf with rfl | hf'
      · exact h0
      · exact tryFormats_none s rest h f hf'

/-- A successful format list names a successful format. -/
theorem tryFormats_some (s : String) :
    ∀ fmts (d : Date), tryFormats fmts s = some d → ∃ f ∈ fmts, strptime s f = some d
  | [], d, h => by simp [tryFormats] at h
  | f0 :: rest, d, h => by
    revert h
    unfold tryFormats
    cases h0 : strptime s f0 with
    | some d0 =>
      intro h
      injection h with h'
      exact ⟨f0, List.mem_cons_self _ _, h' ▸ h0⟩
    | none =>
      intro h
      obtain ⟨f, hf, hs⟩ := tryFormats_some s rest d h
      exact ⟨f, List.mem_cons_of_mem _ hf, hs⟩

/-- parse_date on a non-empty string is the first match over the effective
six-format list of formatted_date (the two extra formats are duplicates). -/
theorem parse_date_eq_exam (s : String) (hs : s ≠ "") :
    parse_date s = tryFormats examDateFormats (pystrip s) := by
  unfold parse_date
  rw [if_neg hs]
  show tryFormats (examDateFormats ++ [fmtDMy, fmtDMY]) (pystrip s) = _
  rw [tryFormats_append]
  cases h : tryFormats examDateFormats (pystrip s) with
  | some d => rfl
  | none =>
    have h1 := tryFormats_none _ _ h fmtDMy (by simp [examDateFormats])
    have h2 := tryFormats_none _ _ h fmtDMY (by simp [examDateFormats])
    simp [tryFormats, h1, h2]

/-- Every month abbreviation contains a character that is neither a digit,
a separator, nor whitespace. -/
theorem month_alpha (m : Nat) (h1 : 1 ≤ m) (h2 : m ≤ 12) :
    ∃ c ∈ (monthAbbrev m).toList,
      ¬(c.isDigit = true ∨ c = '/' ∨ c = '-') ∧ c.isWhitespace = false := by
  interval_cases m <;> decide

/-- Characters that are not whitespace survive Python's strip. -/
theorem mem_pystrip_of_mem {c : Char} (s : String) (hc : c ∈ s.toList)
    (hw : c.isWhitespace = false) : c ∈ (pystrip s).toList := by
  have step : ∀ l : List Char, c ∈ l → c ∈ l.dropWhile Char.isWhitespace := by
    intro l hcl
    rw [← List.takeWhile_append_dropWhile (p := Char.isWhitespace) (l := l)] at hcl
    rcases List.mem_append.1 hcl with h | h
    · have := List.mem_takeWhile_imp h
      rw [hw] at this
      cases this
    · exact h
  show c ∈ ((s.toList.dropWhile Char.isWhitespace).reverse.dropWhile
    Char.isWhitespace).reverse
  rw [List.mem_reverse]
  exact step _ (List.mem_reverse.2 (step _ hc))

/-- When a date parses, the re-rendered string differs from the original:
the rendering contains a month letter, while any string accepted by the
numeric formats consists of digits and separators only. -/
theorem formatted_ne_of_parse (e : Exam) (d : Date)
    (h : tryFormats examDateFormats (pystrip e.exam_date) = some d) :
    strftimeDbY d ≠ e.exam_date := by
  intro heq
  obtain ⟨fmt, hfmem, hsp⟩ := tryFormats_some _ _ d h
  have hlits : ∀ c0, FmtItem.lit c0 ∈ fmt → c0 = '/' ∨ c0 = '-' := by
    intro c0 hc0
    simp only [examDateFormats, List.mem_cons, List.not_mem_nil, or_false] at hfmem
    rcases hfmem with rfl | rfl | rfl | rfl | rfl | rfl <;>
      simp [fmtDMy, fmtDMY, fmtDdashMY, fmtYMD, fmtMDy, fmtMDY] at hc0 <;>
      simp [hc0]
  have hchars := strptime_chars _ fmt d hlits hsp
  have hm := strptime_month_bounds _ fmt d hsp
  obtain ⟨c, hcmem, hcbad, hcw⟩ := month_alpha d.month hm.1 hm.2
  have hcmem2 : c ∈ (monthAbbrev d.month).data := hcmem
  have hcfull : c ∈ (strftimeDbY d).toList := by
    unfold strftimeDbY
    show c ∈ ((pad2 d.day ++ " " ++ monthAbbrev d.month ++ " " ++ toString d.year)).data
    simp only [String.data_append, List.mem_append]
    exact Or.inl (Or.inl (Or.inr hcmem2))
  rw [heq] at hcfull
  exact hcbad (hchars c (mem_pystrip_of_mem e.exam_date hcfull hcw))

/-- C9: the two date parsers agree on acceptance — parse_date's list is the
six-format list plus two duplicate entries, and parse_date succeeds exactly
when formatted_date re-renders the date instead of returning it
unchanged. -/
theorem C9_parser_agreement :
    parseDateFormats = examDateFormats ++ [fmtDMy, fmtDMY]
    ∧ ∀ e : Exam, (parse_date e.exam_date).isSome ↔
        e.formatted_date ≠ e.exam_date := by
  refine ⟨rfl, fun e => ?_⟩
  by_cases hs : e.exam_date = ""
  · rw [hs]
    constructor
    · intro h
      rw [show parse_date "" = none from rfl] at h
      cases h
    · intro h
      exfalso
      apply h
      show Exam.formatted_date e = ""
      unfold Exam.formatted_date
      rw [hs]
      rw [show tryFormats examDateFormats (pystrip "") = none from by decide]
  · rw [parse_date_eq_exam e.exam_date hs]
    unfold Exam.formatted_date
    cases h : tryFormats examDateFormats (pystrip e.exam_date) with
    | none => simp
    | some d =>
      simp only [Option.isSome_some, true_iff]
      exact formatted_ne_of_parse e d h

/-- Witness for C9 at concrete inputs on both sides of the iff. -/
theorem C9_parser_agreement_witness :
    (mkExam "6/8/25").formatted_date ≠ (mkExam "6/8/25").exam_date
    ∧ (parse_date (mkExam "not-a-date").exam_date).isSome = false :=
  ⟨(C9_parser_agreement.2 (mkExam "6/8/25")).mp (by decide), by decide⟩

/-! ## C10 — orchestrator statistics invariant -/

/-- Association lookup across an append. -/
theorem alookup_append {β : Type} (k : String) :
    ∀ l1 l2 : List (String × β),
      alookup k (l1 ++ l2) =
        match alookup k l1 with
        | some v => some v
        | none => alookup k l2
  | [], l2 => rfl
  | (k0, v) :: rest, l2 => by
    by_cases h : k0 = k <;> simp [alookup, h, alookup_append k rest l2]

/-- The per-grade counter is bounded by the total number of students of the
iterated grades. -/
theorem gradePassCount_le (exams : List Exam) (school : String) :
    ∀ (grades : List (String × List Student)) (acc n : Nat),
      gradePassCount exams school grades acc = .ok n →
      n ≤ acc + (grades.map (fun gb => gb.2.length)).sum
  | [], acc, n, h => by
    unfold gradePassCount at h
    injection h with h'
    subst h'
    simp
  | (grade, gstudents) :: rest, acc, n, h => by
    unfold gradePassCount at h
    cases hf : filter_exams_for_grade_and_school exams grade school with
    | error e => rw [hf] at h; cases h
    | ok gexams =>
      rw [hf, ok_bind_eq] at h
      by_cases hge : gexams = []
      · rw [if_pos hge] at h
        have hrec := gradePassCount_le exams school rest acc n h
        simp only [List.map_cons, List.sum_cons]
        omega
      · rw [if_neg hge] at h
        have hrec := gradePassCount_le exams school rest (acc + gstudents.length) n h
        simp only [List.map_cons, List.sum_cons]
        omega

/-- The first orchestrator loop never touches the count of a school that is
not a key of the remaining grouped data. -/
theorem schoolsLoop_preserve (exams : List Exam) (schoolNames : List String) :
    ∀ (grouped : Grouped) (counts res : List (String × Nat)),
      schoolsLoop exams schoolNames grouped counts = .ok res →
      ∀ school, (∀ p ∈ grouped, p.1 ≠ school) →
        alookup school res = alookup school counts
  | [], counts, res, h, school, _ => by
    unfold schoolsLoop at h
    injection h with h'
    rw [← h']
  | (name, grades) :: rest, counts, res, h, school, hk => by
    unfold schoolsLoop at h
    have hne : name ≠ school := hk (name, grades) (List.mem_cons_self _ _)
    by_cases hmem : name ∈ schoolNames
    · rw [if_pos hmem] at h
      cases hg : gradePassCount exams name (sorted_grade_items grades) 0 with
      | error e => rw [hg] at h; cases h
      | ok n =>
        rw [hg, ok_bind_eq] at h
        have hrec := schoolsLoop_preserve exams schoolNames rest
          (counts ++ [(name, n)]) res h school
          (fun p hp => hk p (List.mem_cons_of_mem _ hp))
        rw [hrec, alookup_append]
        cases alookup school counts <;> simp [alookup, hne]
    · rw [if_neg hmem] at h
      exact schoolsLoop_preserve exams schoolNames rest counts res h school
        (fun p hp => hk p (List.mem_cons_of_mem _ hp))

/-- Lookup characterization of the first orchestrator loop: a grouped school
in the school table receives a count bounded by its total roster, a grouped
school outside the table and an unknown school receive nothing. -/
theorem schoolsLoop_lookup (exams : List Exam) (schoolNames : List String) :
    ∀ (grouped : Grouped) (counts res : List (String × Nat)),
      schoolsLoop exams schoolNames grouped counts = .ok res →
      (grouped.map Prod.fst).Nodup →
      ∀ school, alookup school counts = none →
        (alookup school grouped = none → alookup school res = none)
        ∧ ∀ grades, alookup school grouped = some grades →
            ((school ∈ schoolNames → ∃ n, alookup school res = some n
                ∧ n ≤ (grades.map (fun gb => gb.2.length)).sum)
             ∧ (school ∉ schoolNames → alookup school res = none))
  | [], counts, res, h, _, school, hc => by
    unfold schoolsLoop at h
    injection h with h'
    subst h'
    exact ⟨fun _ => hc, fun grades hg => by cases hg⟩
  | (name, grades0) :: rest, counts, res, h, hnodup, school, hc => by
    unfold schoolsLoop at h
    have hmap : (name :: rest.map Prod.fst).Nodup := by simpa using hnodup
    have hnd1 : name ∉ rest.map Prod.fst := (List.nodup_cons.1 hmap).1
    have hnd2 : (rest.map Prod.fst).Nodup := (List.nodup_cons.1 hmap).2
    by_cases hname : name = school
    · subst hname
      have hrestkeys : ∀ p ∈ rest, p.1 ≠ name := by
        intro p hp hpk
        exact hnd1 (hpk ▸ List.mem_map_of_mem Prod.fst hp)
      constructor
      · intro hgl
        simp [alookup] at hgl
      · intro grades hg
        simp only [alookup, if_pos] at hg
        injection hg with hg'
        subst hg'
        by_cases hmem : name ∈ schoolNames
        · rw [if_pos hmem] at h
          cases hgc : gradePassCount exams name (sorted_grade_items grades0) 0 with
          | error e => rw [hgc] at h; cases h
          | ok n =>
            rw [hgc, ok_bind_eq] at h
            have hpres := schoolsLoop_preserve exams schoolNames rest
              (counts ++ [(name, n)]) res h name hrestkeys
            have hbound : n ≤ (grades0.map (fun gb => gb.2.length)).sum := by
              have h1 := gradePassCount_le exams name (sorted_grade_items grades0) 0 n hgc
              have h2 : ((sorted_grade_items grades0).map (fun gb => gb.2.length)).sum =
                  (grades0.map (fun gb => gb.2.length)).sum :=
                ((List.perm_insertionSort gradeItemLe grades0).map
                  (fun gb => gb.2.length)).sum_eq
              omega
            refine ⟨fun _ => ⟨n, ?_, hbound⟩, fun hnot => absurd hmem hnot⟩
            rw [hpres, alookup_append, hc]
            simp [alookup]
        · rw [if_neg hmem] at h
          have hpres := schoolsLoop_preserve exams schoolNames rest counts res h
            name hrestkeys
          exact ⟨fun hin => absurd hin hmem, fun _ => by rw [hpres]; exact hc⟩
    · have hcons : alookup school ((name, grades0) :: rest) = alookup school rest := by
        simp [alookup, hname]
      by_cases hmem : name ∈ schoolNames
      · rw [if_pos hmem] at h
        cases hgc : gradePassCount exams name (sorted_grade_items grades0) 0 with
        | error e => rw [hgc] at h; cases h
        | ok n =>
          rw [hgc, ok_bind_eq] at h
          have hc2 : alookup school (counts ++ [(name, n)]) = none := by
            rw [alookup_append, hc]
            simp [alookup, hname]
          have hrec := schoolsLoop_lookup exams schoolNames rest
            (counts ++ [(name, n)]) res h hnd2 school hc2
          rw [hcons]
          exact hrec
      · rw [if_neg hmem] at h
        have hrec := schoolsLoop_lookup exams schoolNames rest counts res h
          hnd2 school hc
        rw [hcons]
        exact hrec

/-- Lookup characterization of the second orchestrator loop: present counts
are preserved, grouped schools missing a count receive 0. -/
theorem defaultZeroLoop_lookup :
    ∀ (grouped : Grouped) (counts : List (String × Nat)) (school : String),
      alookup school (defaultZeroLoop grouped counts) =
        match alookup school counts with
        | some v => some v
        | none => if (alookup school grouped).isSome then some 0 else none
  | [], counts, school => by
    unfold defaultZeroLoop
    cases alookup school counts <;> simp [alookup]
  | (name, g0) :: rest, counts, school => by
    unfold defaultZeroLoop
    by_cases hname : name = school
    · subst hname
      cases hnc : alookup name counts with
      | some v =>
        rw [if_neg (by simp [hnc])]
        rw [defaultZeroLoop_lookup rest counts name, hnc]
      | none =>
        rw [if_pos rfl]
        rw [defaultZeroLoop_lookup rest (counts ++ [(name, 0)]) name]
        rw [alookup_append, hnc]
        simp [alookup]
    · cases hnc : alookup name counts with
      | some v =>
        rw [if_neg (by simp [hnc])]
        rw [defaultZeroLoop_lookup rest counts school]
        simp [alookup, hname]
      | none =>
        rw [if_pos rfl]
        rw [defaultZeroLoop_lookup rest (counts ++ [(name, 0)]) school]
        rw [alookup_append]
        cases hsc : alookup school counts with
        | some v => simp
        | none =>
          simp [alookup, hname]

/-- Keys after an upsert: unchanged when the key is present, appended
otherwise. -/
theorem upsert_keys {β : Type} (k : String) (d : β) (f : β → β) :
    ∀ l : List (String × β),
      (upsert k d f l).map Prod.fst =
        if k ∈ l.map Prod.fst then l.map Prod.fst else l.map Prod.fst ++ [k]
  | [] => by simp [upsert]
  | (k0, v) :: rest => by
    by_cases h : k0 = k
    · subst h
      simp [upsert]
    · have hne : ¬k = k0 := fun hh => h hh.symm
      simp only [upsert, if_neg h, List.map_cons, upsert_keys k d f rest]
      by_cases hmem : k ∈ rest.map Prod.fst
      · simp [hmem, hne]
      · simp [hmem, hne]

/-- An upsert preserves key distinctness. -/
theorem upsert_keys_nodup {β : Type} (k : String) (d : β) (f : β → β)
    (l : List (String × β)) (h : (l.map Prod.fst).Nodup) :
    ((upsert k d f l).map Prod.fst).Nodup := by
  rw [upsert_keys]
  by_cases hmem : k ∈ l.map Prod.fst
  · rwa [if_pos hmem]
  · rw [if_neg hmem]
    simp [List.nodup_append, h, hmem]

/-- The grouping fold keeps school keys distinct. -/
theorem groupFold_keys_nodup (students : List Student) :
    ((groupFold students).map Prod.fst).Nodup := by
  have haux : ∀ (l : List Student) (g : Grouped), (g.map Prod.fst).Nodup →
      ((l.foldl stepStudent g).map Prod.fst).Nodup := by
    intro l
    induction l with
    | nil => intro g hg; simpa using hg
    | cons s t ih =>
      intro g hg
      rw [List.foldl_cons]
      exact ih (stepStudent g s) (upsert_keys_nodup s.school [] _ g hg)
  exact haux students [] (by simp)

/-- Grouping and sorting the buckets does not change the school keys. -/
theorem group_keys (students : List Student) :
    (group_students_by_school_and_grade students).map Prod.fst =
      (groupFold students).map Prod.fst := by
  unfold group_students_by_school_and_grade
  rw [List.map_map]
  rfl

/-- Lookup of a school in the grouped output mirrors the grouping fold. -/
theorem alookup_group (students : List Student) (school : String) :
    alookup school (group_students_by_school_and_grade students) =
      (alookup school (groupFold students)).map
        (fun grades => grades.map
          (fun gb => (gb.1, List.insertionSort studentLe gb.2))) := by
  unfold group_students_by_school_and_grade
  exact alookup_map _ school (groupFold students)

/-- C10: after the statistics run completes, every school of the grouped
input has with-passes count at most its total student count, and both
accessors return 0 for a school never seen. -/
theorem C10_statistics (students : List Student) (exams : List Exam)
    (schoolNames : List String) (sc gc : List (String × Nat))
    (h : generate_all_passes_stats students exams schoolNames = .ok (sc, gc)) :
    (∀ school,
        (alookup school (group_students_by_school_and_grade students)).isSome →
        statCount sc school ≤ statCount gc school)
    ∧ (∀ school,
        alookup school (group_students_by_school_and_grade students) = none →
        statCount sc school = 0 ∧ statCount gc school = 0) := by
  unfold generate_all_passes_stats at h
  by_cases hstu : students = []
  · rw [if_pos hstu] at h
    injection h with h'
    injection h' with h1 h2
    subst h1
    subst h2
    subst hstu
    exact ⟨fun school hs => le_refl _, fun school _ => ⟨rfl, rfl⟩⟩
  · rw [if_neg hstu] at h
    by_cases hex : exams = []
    · rw [if_pos hex] at h
      injection h with h'
      injection h' with h1 h2
      subst h1
      subst h2
      exact ⟨fun school hs => le_refl _, fun school _ => ⟨rfl, rfl⟩⟩
    · rw [if_neg hex] at h
      cases hsl : schoolsLoop exams schoolNames
          (group_students_by_school_and_grade students) [] with
      | error e => rw [hsl] at h; cases h
      | ok sc0 =>
        rw [hsl, ok_bind_eq] at h
        injection h with h'
        injection h' with h1 h2
        subst h1
        subst h2
        have hnodup : ((group_students_by_school_and_grade students).map
            Prod.fst).Nodup := by
          rw [group_keys]
          exact groupFold_keys_nodup students
        have hsl2 := schoolsLoop_lookup exams schoolNames
          (group_students_by_school_and_grade students) [] sc0 hsl hnodup
        constructor
        · intro school hsome
          cases hga : alookup school (group_students_by_school_and_grade students) with
          | none => rw [hga] at hsome; cases hsome
          | some grades =>
            have hgc : statCount
                ((group_students_by_school_and_grade students).map
                  (fun sg => (sg.1, (sg.2.map (fun gb => gb.2.length)).sum))) school =
                (grades.map (fun gb => gb.2.length)).sum := by
              unfold statCount
              rw [alookup_map
                (fun b => (b.map (fun gb => (gb.2 : List Student).length)).sum)
                school (group_students_by_school_and_grade students), hga]
              rfl
            rw [hgc]
            have hlook := (hsl2 school rfl).2 grades hga
            by_cases hmem : school ∈ schoolNames
            · obtain ⟨n, hn, hb⟩ := hlook.1 hmem
              unfold statCount
              rw [defaultZeroLoop_lookup, hn]
              exact hb
            · have hnone := hlook.2 hmem
              unfold statCount
              rw [defaultZeroLoop_lookup, hnone, hga]
              simp
        · intro school hnone
          have hsc0 := (hsl2 school rfl).1 hnone
          constructor
          · unfold statCount
            rw [defaultZeroLoop_lookup, hsc0, hnone]
            rfl
          · unfold statCount
            rw [alookup_map
              (fun b => (b.map (fun gb => (gb.2 : List Student).length)).sum)
              school (group_students_by_school_and_grade students), hnone]
            rfl

/-- Witness for C10 at a concrete completed run. -/
theorem C10_statistics_witness :
    statCount [("S", 0)] "S" ≤ statCount [("S", 1)] "S"
    ∧ statCount [("S", 0)] "Other" = 0 :=
  ⟨(C10_statistics [mkStudent "A" "B"] [exParseable] ["S"] [("S", 0)] [("S", 1)]
      (by rfl)).1 "S" (by decide),
   ((C10_statistics [mkStudent "A" "B"] [exParseable] ["S"] [("S", 0)] [("S", 1)]
      (by rfl)).2 "Other" (by rfl)).1⟩

end PassGen
